import Mathlib

/-!
Verification of the student record store (`optimized_student_management.py`)
and the password generator (`optimized_password_generator.py`).

The record store keeps a Python dict from student id to `Student`; we model
the dict as an insertion-ordered association list (`Store`) with the dict
operations `dmem`, `dget`, `dinsert` (replace-in-place or append), `dkeys`,
`dvalues`, `dsize`.  Interactive `input()` values become explicit string
arguments; Python `int(...)` becomes `parseInt`; `str.strip()` becomes
`pyStrip`; raised-and-caught `ValueError`s become result constructors.
-/

/-- Characters removed from both ends by Python `str.strip()`. -/
def stripChars (l : List Char) : List Char :=
  ((l.dropWhile Char.isWhitespace).reverse.dropWhile Char.isWhitespace).reverse

/-- Model of Python `str.strip()`: remove leading and trailing whitespace. -/
def pyStrip (s : String) : String :=
  ⟨stripChars s.data⟩

structure Student where
  id : String
  name : String
  age : Int
  grade : String
deriving Repr, DecidableEq

/-- Validation performed by `Student.__post_init__`: id, name and grade must
be non-empty after stripping, and age must lie in [0, 150]. -/
def studentValid (s : Student) : Bool :=
  !(pyStrip s.id == "") && !(pyStrip s.name == "")
    && decide (0 ≤ s.age) && decide (s.age ≤ 150) && !(pyStrip s.grade == "")

/-- Digits of an ordinary decimal numeral (used by `parseInt`). -/
def parseDigits (cs : List Char) : Option Nat :=
  if cs.isEmpty then none
  else if cs.all Char.isDigit then
    some (cs.foldl (fun acc c => acc * 10 + (c.toNat - 48)) 0)
  else none

/-- Model of Python `int(s)` on ordinary decimal input: surrounding
whitespace is ignored, an optional sign is allowed, the rest must be a
non-empty digit string; any other input raises `ValueError` (here `none`). -/
def parseInt (s : String) : Option Int :=
  match (pyStrip s).data with
  | '+' :: rest => (parseDigits rest).map (fun n => (n : Int))
  | '-' :: rest => (parseDigits rest).map (fun n => -(n : Int))
  | l => (parseDigits l).map (fun n => (n : Int))

/-- The manager's `self.students` dict, as an insertion-ordered association
list from id to record (Python dicts preserve insertion order). -/
abbrev Store := List (String × Student)

/-- Dict membership test (`key in d`). -/
def dmem (k : String) (st : Store) : Bool :=
  st.any (fun p => p.1 == k)

/-- Dict lookup (`d.get(key)`). -/
def dget (k : String) (st : Store) : Option Student :=
  (st.find? (fun p => p.1 == k)).map (fun p => p.2)

/-- Dict assignment `d[key] = v`: replaces the value at an existing key in
place (keeping its position) or appends a new key at the end. -/
def dinsert (k : String) (v : Student) : Store → Store
  | [] => [(k, v)]
  | p :: rest => if p.1 == k then (k, v) :: rest else p :: dinsert k v rest

/-- Dict key list, in insertion order. -/
def dkeys (st : Store) : List String :=
  st.map (fun p => p.1)

/-- Dict value list, in insertion order (`d.values()`). -/
def dvalues (st : Store) : List Student :=
  st.map (fun p => p.2)

/-- Dict size (`len(d)`). -/
def dsize (st : Store) : Nat :=
  st.length

inductive AddResult where
  | ok
  | duplicate
  | invalid
deriving Repr, DecidableEq

/-- `OptimizedStudentManager.add_student`, with the four `input()` strings as
arguments.  Strips the id, rejects a duplicate key before reading further
fields, then parses the age (`int` failure and `Student` validation failure
are the same caught `ValueError`, reported `invalid`) and inserts on success. -/
def add_student (st : Store) (idInput nameInput ageInput gradeInput : String) :
    AddResult × Store :=
  let student_id := pyStrip idInput
  if dmem student_id st then (.duplicate, st)
  else
    let name := pyStrip nameInput
    match parseInt ageInput with
    | none => (.invalid, st)
    | some age =>
      let grade := pyStrip gradeInput
      let s : Student := ⟨student_id, name, age, grade⟩
      if studentValid s then (.ok, dinsert student_id s st)
      else (.invalid, st)

/-- `OptimizedStudentManager.search_student`: strips the id and does a dict
lookup; no mutation. -/
def search_student (st : Store) (idInput : String) : Option Student :=
  dget (pyStrip idInput) st

/-- Helper for `update_student`: after the supplied fields have been applied
in place to the stored record, `Student(...)` re-validates; on success the
manager saves and reports success, on failure it reports the error — in both
cases the in-place mutations remain in the dict. -/
def finishUpdate (st : Store) (key : String) (cur3 : Student) :
    AddResult × Store :=
  if studentValid cur3 then (.ok, dinsert key cur3 st)
  else (.invalid, dinsert key cur3 st)

inductive UpdateResult where
  | ok
  | notFound
  | invalid
deriving Repr, DecidableEq

/-- `OptimizedStudentManager.update_student`, with the four `input()` strings
as arguments.  Mirrors the source faithfully: the stored record is mutated
field by field (empty input keeps the current value) and only afterwards
re-validated; `int(age_input)` can raise after the name was already applied,
and a validation failure does not roll back the applied fields. -/
def update_student (st : Store) (idInput nameInput ageInput gradeInput : String) :
    UpdateResult × Store :=
  let student_id := pyStrip idInput
  match dget student_id st with
  | none => (.notFound, st)
  | some cur =>
    let name := pyStrip nameInput
    let age_input := pyStrip ageInput
    let grade := pyStrip gradeInput
    let cur1 : Student :=
      if name == "" then cur else ⟨cur.id, name, cur.age, cur.grade⟩
    if age_input == "" then
      let cur3 : Student :=
        if grade == "" then cur1 else ⟨cur1.id, cur1.name, cur1.age, grade⟩
      match finishUpdate st student_id cur3 with
      | (.ok, st2) => (.ok, st2)
      | (_, st2) => (.invalid, st2)
    else
      match parseInt age_input with
      | none => (.invalid, dinsert student_id cur1 st)
      | some a =>
        let cur2 : Student := ⟨cur1.id, cur1.name, a, cur1.grade⟩
        let cur3 : Student :=
          if grade == "" then cur2 else ⟨cur2.id, cur2.name, cur2.age, grade⟩
        match finishUpdate st student_id cur3 with
        | (.ok, st2) => (.ok, st2)
        | (_, st2) => (.invalid, st2)

/-- Lexicographic (code-point) order on character lists, as Python compares
strings. -/
def lexLt : List Char → List Char → Bool
  | [], [] => false
  | [], _ :: _ => true
  | _ :: _, [] => false
  | a :: as, b :: bs => if a < b then true else if b < a then false else lexLt as bs

/-- String comparison `a <= b` used by Python `sorted`. -/
def strLe (a b : String) : Bool :=
  !lexLt b.data a.data

/-- Insertion of a string into a sorted list (for Python `sorted`). -/
def insertKey (x : String) : List String → List String
  | [] => [x]
  | y :: ys => if strLe x y then x :: y :: ys else y :: insertKey x ys

/-- Python `sorted` on strings: lexicographic insertion sort. -/
def sortKeys (l : List String) : List String :=
  l.foldr insertKey []

/-- `OptimizedStudentManager.view_students`: the records printed, in order of
sorted id. -/
def view_students (st : Store) : List Student :=
  (sortKeys (dkeys st)).filterMap (fun k => dget k st)

/-- `OptimizedStudentManager.save_data`: the ordered sequence of records
serialized to the backing file (`[asdict(s) for s in d.values()]`). -/
def save_data (st : Store) : List Student :=
  dvalues st

/-- Loop body of `load_data`: each entry is validated by the `Student`
constructor and assigned into the dict; the first invalid entry raises,
aborting the loop but keeping everything inserted so far (`false` = the
except-branch diagnostic was printed instead of the loaded count). -/
def loadAux : List Student → Store → Store × Bool
  | [], acc => (acc, true)
  | e :: rest, acc =>
    if studentValid e then loadAux rest (dinsert e.id e acc)
    else (acc, false)

/-- `OptimizedStudentManager.load_data` on an existing file: `none` models
content that `json.load` cannot parse (nothing was inserted when the
exception fired), `some entries` a parsed list of field records. -/
def load_data (file : Option (List Student)) : Store × Bool :=
  match file with
  | none => ([], false)
  | some entries => loadAux entries []

/-- One step of the grade-distribution dict build
(`grade_count[grade] = grade_count.get(grade, 0) + 1`). -/
def bumpGrade : List (String × Nat) → String → List (String × Nat)
  | [], g => [(g, 1)]
  | p :: rest, g =>
    if p.1 == g then (p.1, p.2 + 1) :: rest else p :: bumpGrade rest g

/-- Grade-distribution dict of `get_statistics`, in insertion order. -/
def gradeTally (grades : List String) : List (String × Nat) :=
  grades.foldl bumpGrade []

/-- Insertion of a grade/count pair into a list sorted by grade (the keys of
a dict are distinct, so Python `sorted(items())` orders by key alone). -/
def insertPair (x : String × Nat) : List (String × Nat) → List (String × Nat)
  | [] => [x]
  | y :: ys => if strLe x.1 y.1 then x :: y :: ys else y :: insertPair x ys

/-- Python `sorted(grade_count.items())`. -/
def sortPairs (l : List (String × Nat)) : List (String × Nat) :=
  l.foldr insertPair []

/-- The figures printed by `get_statistics`; the average is the exact
rational `sum(ages) / len(ages)`. -/
structure Stats where
  count : Nat
  averageAge : ℚ
  minAge : Int
  maxAge : Int
  gradeCounts : List (String × Nat)
deriving Repr, DecidableEq

/-- `OptimizedStudentManager.get_statistics`: `none` when the store is empty
(the source prints a notice and returns), otherwise the count, average age,
age range and grade distribution sorted by grade. -/
def get_statistics (st : Store) : Option Stats :=
  match dvalues st with
  | [] => none
  | v :: vs =>
    let ages := (v :: vs).map (fun s => s.age)
    let grades := (v :: vs).map (fun s => s.grade)
    some
      { count := dsize st
        averageAge := ((ages.foldl (· + ·) 0 : Int) : ℚ) / (ages.length : ℚ)
        minAge := (vs.map (fun s => s.age)).foldl min v.age
        maxAge := (vs.map (fun s => s.age)).foldl max v.age
        gradeCounts := sortPairs (gradeTally grades) }

/-- `string.ascii_uppercase`. -/
def ascii_uppercase : String := "ABCDEFGHIJKLMNOPQRSTUVWXYZ"

/-- `string.ascii_lowercase`. -/
def ascii_lowercase : String := "abcdefghijklmnopqrstuvwxyz"

/-- `string.digits`. -/
def string_digits : String := "0123456789"

/-- `string.punctuation` (the apostrophe, backtick and braces are written as
escapes). -/
def string_punctuation : String :=
  "!\"#$%&\x27()*+,-./:;<=>?@[\\]^_\x60\x7b|\x7d~"

/-- `PasswordGenerator.char_sets`: the four recognized character classes. -/
def char_sets (c : String) : Option String :=
  if c == "upper" then some ascii_uppercase
  else if c == "lower" then some ascii_lowercase
  else if c == "digits" then some string_digits
  else if c == "special" then some string_punctuation
  else none

/-- The `character_pool` built by `generate_password`: the concatenation of
the selected classes, silently dropping names not in `char_sets`
(`if char_type in self.char_sets`). -/
def character_pool (cts : List String) : List Char :=
  ((cts.filterMap char_sets).map String.data).flatten

inductive PGError where
  | invalidLength
  | noTypes
  | invalidTypes
deriving Repr, DecidableEq

/-- `PasswordGenerator.generate_password`.  The `secrets.choice` draws are
supplied by the oracle `r`: draw `i` picks pool index `r i % pool.length`.
The three `ValueError`s of the source become the three `PGError`s. -/
def generate_password (r : Nat → Nat) (length : Int) (char_types : List String) :
    Except PGError String :=
  if length ≤ 0 then .error .invalidLength
  else if char_types.isEmpty then .error .noTypes
  else
    let pool := character_pool char_types
    if pool.isEmpty then .error .invalidTypes
    else
      .ok ⟨(List.range length.toNat).map (fun i => pool.getD (r i % pool.length) 'A')⟩

/-- `PasswordGenerator.generate_multiple_passwords`: `count` independent
calls; draw streams are indexed per password. -/
def generate_multiple_passwords (r : Nat → Nat → Nat) (count : Int)
    (length : Int) (char_types : List String) : List (Except PGError String) :=
  (List.range count.toNat).map (fun j => generate_password (r j) length char_types)

theorem dget_dinsert_self (k : String) (v : Student) (st : Store) :
    dget k (dinsert k v st) = some v := by
  induction st with
  | nil => simp [dget, dinsert]
  | cons p rest ih =>
    cases hb : (p.1 == k) with
    | true => simp [dget, dinsert, hb, List.find?_cons]
    | false => simpa [dget, dinsert, hb, List.find?_cons] using ih

theorem dget_dinsert_ne (k k2 : String) (v : Student) (st : Store)
    (h : k2 ≠ k) : dget k (dinsert k2 v st) = dget k st := by
  have h1 : (k2 == k) = false := beq_eq_false_iff_ne.mpr h
  induction st with
  | nil => simp [dget, dinsert, List.find?_cons, h1]
  | cons p rest ih =>
    cases hb : (p.1 == k2) with
    | true =>
      have hp : p.1 = k2 := by simpa using hb
      have h2 : (p.1 == k) = false := by rw [hp]; exact h1
      simp [dget, dinsert, hb, List.find?_cons, h1, h2]
    | false =>
      cases hk : (p.1 == k) with
      | true => simp [dget, dinsert, hb, List.find?_cons, hk]
      | false => simpa [dget, dinsert, hb, List.find?_cons, hk] using ih

theorem dinsert_of_not_mem (k : String) (v : Student) (st : Store)
    (h : dmem k st = false) : dinsert k v st = st ++ [(k, v)] := by
  induction st with
  | nil => simp [dinsert]
  | cons p rest ih =>
    simp only [dmem, List.any_cons, Bool.or_eq_false_iff] at h
    simp [dinsert, h.1, ih (by simp [dmem, h.2])]

/-- C1 (amended): when `update_student` returns a validation error the stored
record is NOT left unchanged — the supplied fields were applied in place
before validation ran, so every field applied before the failure point
survives; in particular a supplied (non-empty after stripping) name is always
present on the stored record afterwards. -/
theorem update_invalid_keeps_applied_name (st : Store)
    (idI nI aI gI : String)
    (hinv : (update_student st idI nI aI gI).1 = .invalid)
    (hn : pyStrip nI ≠ "") :
    ∃ r, dget (pyStrip idI) (update_student st idI nI aI gI).2 = some r ∧
      r.name = pyStrip nI := by
  simp only [update_student, finishUpdate, beq_iff_eq] at hinv ⊢
  cases hget : dget (pyStrip idI) st with
  | none => simp [hget] at hinv
  | some cur =>
    simp only [hget, if_neg hn] at hinv ⊢
    by_cases hae : pyStrip aI = ""
    · simp only [if_pos hae] at hinv ⊢
      by_cases hge : pyStrip gI = ""
      · simp only [if_pos hge] at hinv ⊢
        by_cases hv : studentValid ⟨cur.id, pyStrip nI, cur.age, cur.grade⟩ = true
        · simp [if_pos hv] at hinv
        · simp only [if_neg hv] at hinv ⊢
          exact ⟨_, dget_dinsert_self _ _ _, rfl⟩
      · simp only [if_neg hge] at hinv ⊢
        by_cases hv : studentValid ⟨cur.id, pyStrip nI, cur.age, pyStrip gI⟩ = true
        · simp [if_pos hv] at hinv
        · simp only [if_neg hv] at hinv ⊢
          exact ⟨_, dget_dinsert_self _ _ _, rfl⟩
    · simp only [if_neg hae] at hinv ⊢
      cases hpa : parseInt (pyStrip aI) with
      | none =>
        simp only [hpa] at hinv ⊢
        exact ⟨_, dget_dinsert_self _ _ _, rfl⟩
      | some a =>
        simp only [hpa] at hinv ⊢
        by_cases hge : pyStrip gI = ""
        · simp only [if_pos hge] at hinv ⊢
          by_cases hv : studentValid ⟨cur.id, pyStrip nI, a, cur.grade⟩ = true
          · simp [if_pos hv] at hinv
          · simp only [if_neg hv] at hinv ⊢
            exact ⟨_, dget_dinsert_self _ _ _, rfl⟩
        · simp only [if_neg hge] at hinv ⊢
          by_cases hv : studentValid ⟨cur.id, pyStrip nI, a, pyStrip gI⟩ = true
          · simp [if_pos hv] at hinv
          · simp only [if_neg hv] at hinv ⊢
            exact ⟨_, dget_dinsert_self _ _ _, rfl⟩

/-- C1 (counterexample to the claim as stated): on the store holding
`{id:"S", name:"X", age:20, grade:"A"}`, an update supplying name `"Y"`,
age `"300"` and whitespace-only grade returns a validation error, yet the
stored record has become `{id:"S", name:"Y", age:300, grade:"A"}` — the
supplied fields were applied, not rejected atomically (and the
whitespace-only grade was treated as "keep current", not as a validation
error). -/
theorem update_not_atomic_counterexample :
    (update_student [("S", ⟨"S", "X", 20, "A"⟩)] "S" "Y" "300" " ").1 =
      .invalid ∧
    (update_student [("S", ⟨"S", "X", 20, "A"⟩)] "S" "Y" "300" " ").2 =
      [("S", ⟨"S", "Y", 300, "A"⟩)] ∧
    [("S", (⟨"S", "Y", 300, "A"⟩ : Student))] ≠ [("S", ⟨"S", "X", 20, "A"⟩)] := by
  refine ⟨by decide, by decide, by decide⟩

/-- C1 (witness): the amended theorem applied at the counterexample input. -/
theorem update_invalid_keeps_applied_name_witness :
    ∃ r, dget (pyStrip "S")
        (update_student [("S", ⟨"S", "X", 20, "A"⟩)] "S" "Y" "300" " ").2 =
      some r ∧ r.name = pyStrip "Y" :=
  update_invalid_keeps_applied_name [("S", ⟨"S", "X", 20, "A"⟩)] "S" "Y" "300" " "
    (by decide) (by decide)

theorem loadAux_append_invalid (pre : List Student) (bad : Student)
    (post : List Student) (acc : Store)
    (hpre : ∀ e ∈ pre, studentValid e = true)
    (hbad : studentValid bad = false) :
    loadAux (pre ++ bad :: post) acc = ((loadAux pre acc).1, false) := by
  induction pre generalizing acc with
  | nil => simp [loadAux, hbad]
  | cons e rest ih =>
    have he : studentValid e = true := hpre e (by simp)
    simp only [List.cons_append, loadAux, he, if_true]
    exact ih _ (fun x hx => hpre x (by simp [hx]))

/-- C2 (amended): a parse failure does leave the store empty, but an entry
failing record validation abandons only the REST of the load: every entry
before the first invalid one has already been inserted, so the store may be
partially populated (with the error diagnostic printed, reported here as the
`false` flag). -/
theorem load_keeps_prefix_before_invalid_entry (pre : List Student)
    (bad : Student) (post : List Student)
    (hpre : ∀ e ∈ pre, studentValid e = true)
    (hbad : studentValid bad = false) :
    (load_data (some (pre ++ bad :: post))).1 = (load_data (some pre)).1 ∧
    (load_data (some (pre ++ bad :: post))).2 = false ∧
    load_data none = ([], false) := by
  refine ⟨?_, ?_, rfl⟩ <;>
    simp [load_data, loadAux_append_invalid pre bad post [] hpre hbad]

/-- C2 (counterexample to the claim as stated): a file whose first entry is
valid and whose second entry has age 300 leaves the store holding the first
entry — not empty as the claim requires. -/
theorem load_partially_populated_counterexample :
    (load_data (some [⟨"A", "Alice", 20, "A"⟩, ⟨"B", "Bob", 300, "B"⟩])).1 =
      [("A", ⟨"A", "Alice", 20, "A"⟩)] ∧
    [("A", (⟨"A", "Alice", 20, "A"⟩ : Student))] ≠ ([] : Store) := by
  exact ⟨by decide, by decide⟩

/-- C2 (witness): the amended theorem applied at the counterexample file. -/
theorem load_keeps_prefix_before_invalid_entry_witness :
    (load_data (some ([⟨"A", "Alice", 20, "A"⟩] ++
        (⟨"B", "Bob", 300, "B"⟩ : Student) :: []))).1 =
      (load_data (some [⟨"A", "Alice", 20, "A"⟩])).1 ∧
    (load_data (some ([⟨"A", "Alice", 20, "A"⟩] ++
        (⟨"B", "Bob", 300, "B"⟩ : Student) :: []))).2 = false ∧
    load_data none = ([], false) :=
  load_keeps_prefix_before_invalid_entry [⟨"A", "Alice", 20, "A"⟩]
    ⟨"B", "Bob", 300, "B"⟩ [] (by decide) (by decide)

theorem char_sets_nonempty (c s : String) (h : char_sets c = some s) :
    s.data ≠ [] := by
  unfold char_sets at h
  split_ifs at h
  · injection h with h2; subst h2; decide
  · injection h with h2; subst h2; decide
  · injection h with h2; subst h2; decide
  · injection h with h2; subst h2; decide

theorem character_pool_ne_nil (cts : List String) (c : String)
    (hc : c ∈ cts) (hr : (char_sets c).isSome) :
    character_pool cts ≠ [] := by
  intro hnil
  unfold character_pool at hnil
  rw [List.flatten_eq_nil_iff] at hnil
  obtain ⟨s, hs⟩ := Option.isSome_iff_exists.mp hr
  have hmem : s.data ∈ (cts.filterMap char_sets).map String.data :=
    List.mem_map_of_mem String.data (List.mem_filterMap.mpr ⟨c, hc, hs⟩)
  exact char_sets_nonempty c s hs (hnil _ hmem)

theorem character_pool_eq_nil_iff (cts : List String) :
    character_pool cts = [] ↔ ∀ c ∈ cts, char_sets c = none := by
  constructor
  · intro hnil c hc
    cases ho : char_sets c with
    | none => rfl
    | some s =>
      exact absurd hnil (character_pool_ne_nil cts c hc (by simp [ho]))
  · intro h
    unfold character_pool
    rw [List.filterMap_eq_nil_iff.mpr h]
    rfl

/-- C3 (amended): with a positive length, `generate_password` fails with a
classes error exactly when the selected class list is empty or contains NO
recognized class name; a mix of recognized and unrecognized names is
silently filtered down to the recognized ones rather than rejected. -/
theorem generate_password_classes_error_iff (r : Nat → Nat) (len : Int)
    (cts : List String) (hlen : 0 < len) :
    (generate_password r len cts = .error .noTypes ∨
      generate_password r len cts = .error .invalidTypes) ↔
    (cts = [] ∨ ∀ c ∈ cts, char_sets c = none) := by
  have hnle : ¬len ≤ 0 := not_le.mpr hlen
  unfold generate_password
  rw [if_neg hnle]
  cases hempty : cts.isEmpty with
  | true =>
    have h0 : cts = [] := List.isEmpty_iff.mp (by simp [hempty])
    simp [hempty, h0]
  | false =>
    have h0 : cts ≠ [] := List.isEmpty_eq_false.mp hempty
    simp only [hempty, Bool.false_eq_true, if_false]
    cases hpool : (character_pool cts).isEmpty with
    | true =>
      have hp : character_pool cts = [] := List.isEmpty_iff.mp (by simp [hpool])
      have hall : ∀ c ∈ cts, char_sets c = none :=
        (character_pool_eq_nil_iff cts).mp hp
      simp [hpool, h0]
      exact hall
    | false =>
      have hp : character_pool cts ≠ [] := List.isEmpty_eq_false.mp hpool
      simp only [hpool, Bool.false_eq_true, if_false]
      constructor
      · intro h
        rcases h with h | h <;> exact absurd h (by simp)
      · intro h
        rcases h with h | h
        · exact absurd h h0
        · exact absurd ((character_pool_eq_nil_iff cts).mpr h) hp

/-- C3 (counterexample to the claim as stated): a class list mixing the
recognized name `upper` with the unrecognized name `bogus` is NOT rejected —
generation succeeds, drawing only from the recognized class. -/
theorem mixed_classes_not_rejected_counterexample :
    generate_password (fun _ => 0) 5 ["upper", "bogus"] = .ok "AAAAA" ∧
    char_sets "bogus" = none ∧ "bogus" ∈ ["upper", "bogus"] :=
  ⟨rfl, by decide, by decide⟩

/-- C3 (witness): the amended theorem applied at length 8 with the empty
class list. -/
theorem generate_password_classes_error_iff_witness :
    (generate_password (fun _ => 0) 8 [] = .error .noTypes ∨
      generate_password (fun _ => 0) 8 [] = .error .invalidTypes) ↔
    (([] : List String) = [] ∨ ∀ c ∈ ([] : List String), char_sets c = none) :=
  generate_password_classes_error_iff (fun _ => 0) 8 [] (by decide)

theorem dropWhile_idem (p : Char → Bool) (l : List Char) :
    (l.dropWhile p).dropWhile p = l.dropWhile p := by
  induction l with
  | nil => rfl
  | cons a l ih =>
    by_cases h : p a = true
    · simp [List.dropWhile_cons_of_pos h, ih]
    · simp [List.dropWhile_cons_of_neg h]

theorem dropWhile_eq_self_of_prefix (p : Char → Bool) (l t : List Char)
    (hl : l.dropWhile p = l) (ht : t <+: l) : t.dropWhile p = t := by
  cases t with
  | nil => rfl
  | cons a t2 =>
    obtain ⟨r, hr⟩ := ht
    cases hcase : p a with
    | false =>
      have hna : ¬p a = true := by simp [hcase]
      simp [List.dropWhile_cons_of_neg hna]
    | true =>
      exfalso
      rw [← hr, List.cons_append,
        List.dropWhile_cons_of_pos (by simp [hcase])] at hl
      have h1 : ((t2 ++ r).dropWhile p).length ≤ (t2 ++ r).length :=
        (List.dropWhile_sublist p).length_le
      rw [hl] at h1
      simp at h1

theorem stripChars_idem (l : List Char) :
    stripChars (stripChars l) = stripChars l := by
  unfold stripChars
  have hBp : (((l.dropWhile Char.isWhitespace).reverse.dropWhile
      Char.isWhitespace).dropWhile Char.isWhitespace) =
      (l.dropWhile Char.isWhitespace).reverse.dropWhile Char.isWhitespace :=
    dropWhile_idem _ _
  have hApre : ((l.dropWhile Char.isWhitespace).reverse.dropWhile
      Char.isWhitespace).reverse <+: l.dropWhile Char.isWhitespace := by
    have hsuf := List.dropWhile_suffix (l := (l.dropWhile Char.isWhitespace).reverse)
      Char.isWhitespace
    simpa using hsuf.reverse
  have h1 : (((l.dropWhile Char.isWhitespace).reverse.dropWhile
      Char.isWhitespace).reverse.dropWhile Char.isWhitespace) =
      ((l.dropWhile Char.isWhitespace).reverse.dropWhile Char.isWhitespace).reverse :=
    dropWhile_eq_self_of_prefix _ _ _ (dropWhile_idem _ _) hApre
  rw [h1, List.reverse_reverse, hBp]

theorem pyStrip_idem (s : String) : pyStrip (pyStrip s) = pyStrip s := by
  unfold pyStrip
  congr 1
  exact stripChars_idem s.data

theorem studentValid_stripped (idI nameI gradeI : String) (age : Int)
    (hid : pyStrip idI ≠ "") (hname : pyStrip nameI ≠ "")
    (hgrade : pyStrip gradeI ≠ "") (h0 : 0 ≤ age) (h150 : age ≤ 150) :
    studentValid ⟨pyStrip idI, pyStrip nameI, age, pyStrip gradeI⟩ = true := by
  simp [studentValid, pyStrip_idem, hid, hname, hgrade, h0, h150]

/-- C4 (amended): for every tuple that is valid after stripping, on a store
not containing the stripped id, `add_student` succeeds and a `search_student`
with the same id input returns the record holding the STRIPPED id, name and
grade and the parsed age — equal to the supplied values exactly when the
supplied strings carry no surrounding whitespace. -/
theorem add_then_get_returns_stripped_fields (st : Store)
    (idI nameI ageI gradeI : String) (age : Int)
    (hage : parseInt ageI = some age)
    (hid : pyStrip idI ≠ "") (hname : pyStrip nameI ≠ "")
    (hgrade : pyStrip gradeI ≠ "")
    (h0 : 0 ≤ age) (h150 : age ≤ 150)
    (hmem : dmem (pyStrip idI) st = false) :
    (add_student st idI nameI ageI gradeI).1 = .ok ∧
    search_student (add_student st idI nameI ageI gradeI).2 idI =
      some ⟨pyStrip idI, pyStrip nameI, age, pyStrip gradeI⟩ := by
  have hvalid := studentValid_stripped idI nameI gradeI age hid hname hgrade h0 h150
  constructor
  · simp [add_student, hmem, hage, hvalid]
  · simp only [add_student, search_student, hmem, Bool.false_eq_true, if_false,
      hage, hvalid, if_true]
    exact dget_dinsert_self _ _ _

/-- C4 (counterexample to the claim as stated): supplying name `" Alice "`
(valid after stripping, per the claim's own domain) stores and returns
`"Alice"`, not the supplied string — `add` strips the fields, so `get` does
not return exactly the supplied values. -/
theorem add_get_literal_values_counterexample :
    (add_student [] " S1 " " Alice " "20" "A").1 = .ok ∧
    search_student (add_student [] " S1 " " Alice " "20" "A").2 " S1 " =
      some ⟨"S1", "Alice", 20, "A"⟩ ∧
    ("Alice" : String) ≠ " Alice " :=
  ⟨by decide, by decide, by decide⟩

/-- C4 (witness): the amended theorem applied at a concrete whitespace-free
tuple. -/
theorem add_then_get_returns_stripped_fields_witness :
    (add_student [] "S1" "Alice" "20" "A").1 = .ok ∧
    search_student (add_student [] "S1" "Alice" "20" "A").2 "S1" =
      some ⟨pyStrip "S1", pyStrip "Alice", 20, pyStrip "A"⟩ :=
  add_then_get_returns_stripped_fields [] "S1" "Alice" "20" "A" 20 (by decide)
    (by decide) (by decide) (by decide) (by decide) (by decide) (by decide)

/-- C5 (amended): for a tuple with out-of-range age or empty/whitespace-only
id, name or grade, `add_student` returns a validation error with the store
unchanged PROVIDED the stripped id is not already a key; when it is, the
duplicate check fires first and `add_student` reports duplicate-key instead
(the store is unchanged either way). -/
theorem add_invalid_tuple_rejected (st : Store) (idI nameI ageI gradeI : String)
    (hmem : dmem (pyStrip idI) st = false)
    (hbad : pyStrip idI = "" ∨ pyStrip nameI = "" ∨ pyStrip gradeI = "" ∨
      (∃ a, parseInt ageI = some a ∧ (a < 0 ∨ 150 < a))) :
    (add_student st idI nameI ageI gradeI).1 = .invalid ∧
    (add_student st idI nameI ageI gradeI).2 = st := by
  simp only [add_student, hmem, Bool.false_eq_true, if_false]
  cases hage : parseInt ageI with
  | none => simp
  | some a =>
    have hvalid :
        studentValid ⟨pyStrip idI, pyStrip nameI, a, pyStrip gradeI⟩ = false := by
      have he : pyStrip "" = "" := by decide
      rcases hbad with h | h | h | ⟨a2, ha2, hrange⟩
      · simp [studentValid, pyStrip_idem, h, he]
      · simp [studentValid, pyStrip_idem, h, he]
      · simp [studentValid, pyStrip_idem, h, he]
      · rw [hage] at ha2
        injection ha2 with ha2
        subst ha2
        rcases hrange with h | h
        · have hn : ¬(0 ≤ a) := not_le.mpr h
          simp [studentValid, hn]
        · have hn : ¬(a ≤ 150) := not_le.mpr h
          simp [studentValid, hn]
    simp [hvalid]

/-- C5 (counterexample to the claim as stated): on a store containing id
`"S"`, adding the tuple (id `"S"`, empty name, age 20, grade `"A"`) — a
tuple the claim says must yield validation-error — returns duplicate-key
instead: the duplicate check precedes validation. -/
theorem add_invalid_duplicate_counterexample :
    (add_student [("S", ⟨"S", "X", 20, "A"⟩)] "S" "" "20" "A").1 = .duplicate ∧
    (add_student [("S", ⟨"S", "X", 20, "A"⟩)] "S" "" "20" "A").2 =
      [("S", ⟨"S", "X", 20, "A"⟩)] ∧
    AddResult.duplicate ≠ AddResult.invalid :=
  ⟨by decide, by decide, by decide⟩

/-- C5 (witness): the amended theorem applied at a whitespace-only name on
the empty store. -/
theorem add_invalid_tuple_rejected_witness :
    (add_student [] "S2" " " "20" "A").1 = .invalid ∧
    (add_student [] "S2" " " "20" "A").2 = [] :=
  add_invalid_tuple_rejected [] "S2" " " "20" "A" (by decide)
    (Or.inr (Or.inl (by decide)))

/-- C6 (amended): `add_student` with an id input whose STRIPPED form is
already a key returns duplicate-key and leaves the store entirely unchanged.
Ids created by `add_student` itself never carry surrounding whitespace, so
for such stores this is exactly "id already present"; an id that entered the
store via `load_data` with surrounding whitespace is not matched by the
stripped duplicate check. -/
theorem add_duplicate_rejected (st : Store) (idI nameI ageI gradeI : String)
    (h : dmem (pyStrip idI) st = true) :
    add_student st idI nameI ageI gradeI = (.duplicate, st) := by
  simp [add_student, h]

/-- C6 (counterexample to the claim as stated): loading a file whose record
has id `" A "` (valid — non-empty after stripping) yields a store with key
`" A "`; adding with that very id input does NOT return duplicate-key — the
input is stripped to `"A"`, the duplicate check misses, and a second record
is inserted. -/
theorem add_duplicate_whitespace_id_counterexample :
    (load_data (some [⟨" A ", "X", 20, "B"⟩])).1 =
      [(" A ", ⟨" A ", "X", 20, "B"⟩)] ∧
    dmem " A " [(" A ", (⟨" A ", "X", 20, "B"⟩ : Student))] = true ∧
    (add_student [(" A ", ⟨" A ", "X", 20, "B"⟩)] " A " "Y" "20" "C").1 =
      .ok ∧
    (add_student [(" A ", ⟨" A ", "X", 20, "B"⟩)] " A " "Y" "20" "C").2 =
      [(" A ", ⟨" A ", "X", 20, "B"⟩), ("A", ⟨"A", "Y", 20, "C"⟩)] :=
  ⟨by decide, by decide, by decide, by decide⟩

/-- C6 (witness): the amended theorem applied at a present, whitespace-free
id. -/
theorem add_duplicate_rejected_witness :
    add_student [("S", ⟨"S", "X", 20, "A"⟩)] "S" "Y" "21" "B" =
      (.duplicate, [("S", ⟨"S", "X", 20, "A"⟩)]) :=
  add_duplicate_rejected [("S", ⟨"S", "X", 20, "A"⟩)] "S" "Y" "21" "B" (by decide)

theorem dmem_append (k : String) (a b : Store) :
    dmem k (a ++ b) = (dmem k a || dmem k b) := by
  simp [dmem, List.any_append]

theorem loadAux_all_valid (st : Store) (acc : Store)
    (hkeys : ∀ p ∈ st, p.1 = p.2.id)
    (hvalid : ∀ p ∈ st, studentValid p.2 = true)
    (hdisj : ∀ p ∈ st, dmem p.1 acc = false)
    (hnodup : (dkeys st).Nodup) :
    loadAux (dvalues st) acc = (acc ++ st, true) := by
  induction st generalizing acc with
  | nil => simp [loadAux, dvalues]
  | cons q rest ih =>
    have hq : studentValid q.2 = true := hvalid q (by simp)
    have hkq : q.1 = q.2.id := hkeys q (by simp)
    simp only [dvalues, List.map_cons, loadAux, hq, if_true]
    have hmemq : dmem q.2.id acc = false := by rw [← hkq]; exact hdisj q (by simp)
    rw [dinsert_of_not_mem _ _ _ hmemq]
    have hpair : (q.2.id, q.2) = q := by rw [← hkq]
    rw [hpair]
    have hnd : (dkeys rest).Nodup := by
      simpa [dkeys] using (List.nodup_cons.mp (by simpa [dkeys] using hnodup)).2
    have hq1 : q.1 ∉ dkeys rest :=
      (List.nodup_cons.mp (by simpa [dkeys] using hnodup)).1
    have hdisj2 : ∀ p ∈ rest, dmem p.1 (acc ++ [q]) = false := by
      intro p hp
      rw [dmem_append]
      have h1 : dmem p.1 acc = false := hdisj p (by simp [hp])
      have h2 : dmem p.1 [q] = false := by
        have hne : q.1 ≠ p.1 := by
          intro hcontra
          exact hq1 (hcontra ▸ List.mem_map_of_mem (fun r => r.1) hp)
        simp [dmem, hne]
      rw [h1, h2]
      rfl
    have hrest := ih (acc ++ [q]) (fun p hp => hkeys p (by simp [hp]))
      (fun p hp => hvalid p (by simp [hp])) hdisj2 hnd
    simp only [dvalues] at hrest
    rw [hrest]
    simp

theorem save_then_load_roundtrip (st : Store)
    (hkeys : ∀ p ∈ st, p.1 = p.2.id)
    (hnodup : (dkeys st).Nodup)
    (hvalid : ∀ p ∈ st, studentValid p.2 = true) :
    load_data (some (save_data st)) = (st, true) := by
  unfold load_data save_data
  have h := loadAux_all_valid st [] hkeys hvalid (fun p _ => rfl) hnodup
  simpa using h

/-- C7 (amended): for every store whose entries are keyed by their record's
id, with distinct keys, and all of whose records pass validation (the shape
`add_student` and `load_data` produce — but which a failed `update_student`
can break), saving and then loading from the same file reproduces the store
exactly, so `view_students` lists the same records sorted by id. -/
theorem save_load_list_roundtrip (st : Store)
    (hkeys : ∀ p ∈ st, p.1 = p.2.id)
    (hnodup : (dkeys st).Nodup)
    (hvalid : ∀ p ∈ st, studentValid p.2 = true) :
    view_students (load_data (some (save_data st))).1 = view_students st := by
  rw [save_then_load_roundtrip st hkeys hnodup hvalid]

/-- C7 (counterexample to the claim as stated): a failed update (age "300")
leaves the reachable store `[("S", {S, X, 300, A})]` holding an invalid
record; saving that store and loading the same file back aborts on the
invalid entry, so the fresh store lists nothing while the original lists one
record — the round-trip does NOT hold for every store state. -/
theorem roundtrip_fails_after_failed_update_counterexample :
    (update_student (add_student [] "S" "X" "20" "A").2 "S" "" "300" "").2 =
      [("S", ⟨"S", "X", 300, "A"⟩)] ∧
    view_students (load_data (some (save_data [("S", ⟨"S", "X", 300, "A"⟩)]))).1 =
      [] ∧
    view_students [("S", ⟨"S", "X", 300, "A"⟩)] = [⟨"S", "X", 300, "A"⟩] ∧
    ([] : List Student) ≠ [⟨"S", "X", 300, "A"⟩] :=
  ⟨by decide, by decide, by decide, by decide⟩

/-- C7 (witness): the amended round-trip applied at a concrete well-formed
store. -/
theorem save_load_list_roundtrip_witness :
    view_students (load_data (some (save_data [("S", ⟨"S", "X", 20, "A"⟩)]))).1 =
      view_students [("S", ⟨"S", "X", 20, "A"⟩)] :=
  save_load_list_roundtrip [("S", ⟨"S", "X", 20, "A"⟩)] (by decide) (by decide)
    (by decide)

/-- C8: for every positive length and non-empty list of recognized classes,
`generate_password` returns a string of exactly `length` characters, each a
member of the union pool of the selected classes (whatever the random draws
are); for length ≤ 0 it fails with the invalid-length error before producing
any output. -/
theorem generate_password_ok (r : Nat → Nat) (len : Int) (cts : List String) :
    (0 < len → cts ≠ [] → (∀ c ∈ cts, (char_sets c).isSome) →
      ∃ pw, generate_password r len cts = .ok pw ∧
        (pw.length : Int) = len ∧
        ∀ ch ∈ pw.data, ch ∈ character_pool cts) ∧
    (len ≤ 0 → generate_password r len cts = .error .invalidLength) := by
  constructor
  · intro hlen hne hrec
    have hnle : ¬len ≤ 0 := not_le.mpr hlen
    have hempty : cts.isEmpty = false := by simpa using hne
    obtain ⟨c, hc⟩ := List.exists_mem_of_ne_nil cts hne
    have hpool : character_pool cts ≠ [] :=
      character_pool_ne_nil cts c hc (hrec c hc)
    have hpoolE : (character_pool cts).isEmpty = false := by simpa using hpool
    refine ⟨⟨(List.range len.toNat).map
      (fun i => (character_pool cts).getD
        (r i % (character_pool cts).length) 'A')⟩, ?_, ?_, ?_⟩
    · unfold generate_password
      rw [if_neg hnle]
      simp only [hempty, Bool.false_eq_true, if_false, hpoolE]
    · show ((List.range len.toNat).map _).length = (len : Int)
      rw [List.length_map, List.length_range]
      exact_mod_cast Int.toNat_of_nonneg (le_of_lt hlen)
    · intro ch hch
      have hch2 : ch ∈ (List.range len.toNat).map
          (fun i => (character_pool cts).getD
            (r i % (character_pool cts).length) 'A') := hch
      obtain ⟨i, _, hmap⟩ := List.mem_map.mp hch2
      have hlt : r i % (character_pool cts).length < (character_pool cts).length :=
        Nat.mod_lt _ (List.length_pos.mpr hpool)
      have hgd : (character_pool cts).getD (r i % (character_pool cts).length) 'A' =
          (character_pool cts)[r i % (character_pool cts).length] := by
        rw [List.getD_eq_getElem?_getD, List.getElem?_eq_getElem hlt]
        rfl
      rw [← hmap, hgd]
      exact List.getElem_mem hlt
  · intro hle
    unfold generate_password
    rw [if_pos hle]

/-- C8 (witness): the first part of the theorem at the spec's concrete
scenario `generate(12, digits)`, and the second at length 0. -/
theorem generate_password_ok_witness :
    (∃ pw, generate_password (fun _ => 0) 12 ["digits"] = .ok pw ∧
      (pw.length : Int) = 12 ∧ ∀ ch ∈ pw.data, ch ∈ character_pool ["digits"]) ∧
    generate_password (fun _ => 0) 0 ["upper"] = .error .invalidLength :=
  ⟨(generate_password_ok (fun _ => 0) 12 ["digits"]).1 (by decide) (by decide)
      (by decide),
    (generate_password_ok (fun _ => 0) 0 ["upper"]).2 (by decide)⟩

/-- C9: adding exactly Alice (STU001, age 20, grade A) and Bob (STU002, age
19, grade B) to an empty store makes `get_statistics` report count 2,
average age 19.5, age range 19–20, and the grade distribution A:1, B:1
sorted by grade. -/
theorem statistics_concrete_scenario :
    get_statistics
        (add_student (add_student [] "STU001" "Alice" "20" "A").2
          "STU002" "Bob" "19" "B").2 =
      some ⟨2, 19.5, 19, 20, [("A", 1), ("B", 1)]⟩ := by
  have h :
      get_statistics
          (add_student (add_student [] "STU001" "Alice" "20" "A").2
            "STU002" "Bob" "19" "B").2 =
        some ⟨2, ((39 : Int) : ℚ) / ((2 : Nat) : ℚ), 19, 20,
          [("A", 1), ("B", 1)]⟩ := rfl
  rw [h]
  norm_num

theorem loadAux_all_valid_flag (es : List Student) (acc : Store)
    (h : ∀ e ∈ es, studentValid e = true) : (loadAux es acc).2 = true := by
  induction es generalizing acc with
  | nil => rfl
  | cons e rest ih =>
    have he := h e (by simp)
    simp only [loadAux, he, if_true]
    exact ih _ (fun x hx => h x (by simp [hx]))

theorem loadAux_lookup (es : List Student) (acc : Store) (k : String)
    (h : ∀ e ∈ es, studentValid e = true) :
    dget k (loadAux es acc).1 =
      (es.reverse.find? (fun e => e.id == k)).or (dget k acc) := by
  induction es generalizing acc with
  | nil => simp [loadAux]
  | cons e rest ih =>
    have he := h e (by simp)
    simp only [loadAux, he, if_true]
    rw [ih _ (fun x hx => h x (by simp [hx]))]
    rw [List.reverse_cons, List.find?_append, Option.or_assoc]
    congr 1
    cases hek : (e.id == k) with
    | true =>
      have heq : e.id = k := by simpa using hek
      simp [List.find?_singleton, hek, heq, dget_dinsert_self]
    | false =>
      have hne : e.id ≠ k := by simpa using hek
      simp [List.find?_singleton, hek, dget_dinsert_ne _ _ _ _ hne]

theorem mem_dkeys_dinsert (k k2 : String) (v : Student) (st : Store) :
    k2 ∈ dkeys (dinsert k v st) ↔ k2 ∈ dkeys st ∨ k2 = k := by
  induction st with
  | nil => simp [dinsert, dkeys]
  | cons p rest ih =>
    cases hb : (p.1 == k) with
    | true =>
      have hpk : p.1 = k := by simpa using hb
      simp [dinsert, dkeys, hb, hpk]
      tauto
    | false =>
      simp only [dinsert, hb, Bool.false_eq_true, if_false, dkeys,
        List.map_cons, List.mem_cons]
      rw [show (dinsert k v rest).map (fun p => p.1) = dkeys (dinsert k v rest)
        from rfl, ih]
      simp [dkeys]
      tauto

theorem nodup_dkeys_dinsert (k : String) (v : Student) (st : Store)
    (h : (dkeys st).Nodup) : (dkeys (dinsert k v st)).Nodup := by
  induction st with
  | nil => simp [dinsert, dkeys]
  | cons p rest ih =>
    rw [dkeys, List.map_cons, List.nodup_cons] at h
    cases hb : (p.1 == k) with
    | true =>
      have hpk : p.1 = k := by simpa using hb
      simp only [dinsert, hb, if_true]
      rw [dkeys, List.map_cons, List.nodup_cons]
      exact ⟨hpk ▸ h.1, h.2⟩
    | false =>
      simp only [dinsert, hb, Bool.false_eq_true, if_false]
      rw [dkeys, List.map_cons, List.nodup_cons]
      constructor
      · intro hmem
        rw [show (dinsert k v rest).map (fun p => p.1) = dkeys (dinsert k v rest)
          from rfl, mem_dkeys_dinsert] at hmem
        rcases hmem with hmem | hmem
        · exact h.1 hmem
        · rw [hmem] at hb
          simp at hb
      · exact ih h.2

theorem loadAux_mem_keys (es : List Student) (acc : Store) (k : String)
    (h : ∀ e ∈ es, studentValid e = true) :
    (k ∈ dkeys (loadAux es acc).1 ↔ k ∈ dkeys acc ∨ k ∈ es.map Student.id) := by
  induction es generalizing acc with
  | nil => simp [loadAux]
  | cons e rest ih =>
    have he := h e (by simp)
    simp only [loadAux, he, if_true]
    rw [ih _ (fun x hx => h x (by simp [hx])), mem_dkeys_dinsert]
    simp [List.map_cons]
    tauto

theorem loadAux_nodup_keys (es : List Student) (acc : Store)
    (h : ∀ e ∈ es, studentValid e = true) (hn : (dkeys acc).Nodup) :
    (dkeys (loadAux es acc).1).Nodup := by
  induction es generalizing acc with
  | nil => exact hn
  | cons e rest ih =>
    have he := h e (by simp)
    simp only [loadAux, he, if_true]
    exact ih _ (fun x hx => h x (by simp [hx])) (nodup_dkeys_dinsert _ _ _ hn)

/-- C10: a parsed file whose entries are all individually valid loads without
any error, even when several entries share an id: each id maps to the LAST
entry carrying it (silent overwrite preserves the one-record-per-id
invariant), and the reported load count `len(self.students)` is the number
of DISTINCT ids, not the number of file entries. -/
theorem load_duplicate_ids_last_wins (es : List Student)
    (h : ∀ e ∈ es, studentValid e = true) :
    (load_data (some es)).2 = true ∧
    (∀ k, dget k (load_data (some es)).1 =
      es.reverse.find? (fun e => e.id == k)) ∧
    dsize (load_data (some es)).1 = ((es.map Student.id).toFinset).card := by
  refine ⟨loadAux_all_valid_flag es [] h, ?_, ?_⟩
  · intro k
    have hl := loadAux_lookup es [] k h
    simpa [dget, Option.or_none] using hl
  · have hnodup : (dkeys (loadAux es []).1).Nodup :=
      loadAux_nodup_keys es [] h (by simp [dkeys])
    have hset : (dkeys (loadAux es []).1).toFinset =
        ((es.map Student.id).toFinset) := by
      apply Finset.ext
      intro a
      rw [List.mem_toFinset, List.mem_toFinset, loadAux_mem_keys es [] a h]
      simp [dkeys]
    have hcard := List.toFinset_card_of_nodup hnodup
    have hlen : dsize (loadAux es []).1 = (dkeys (loadAux es []).1).length := by
      simp [dsize, dkeys]
    show dsize (loadAux es []).1 = ((es.map Student.id).toFinset).card
    rw [hlen, ← hcard, hset]

/-- C10 (witness): the theorem applied at a two-entry file sharing the id
`"D"`: no error, the mapping holds the SECOND entry, and the count is 1. -/
theorem load_duplicate_ids_last_wins_witness :
    (load_data (some [⟨"D", "X", 20, "A"⟩, ⟨"D", "Y", 21, "B"⟩])).2 = true ∧
    dget "D" (load_data (some [⟨"D", "X", 20, "A"⟩, ⟨"D", "Y", 21, "B"⟩])).1 =
      ([⟨"D", "X", 20, "A"⟩, (⟨"D", "Y", 21, "B"⟩ : Student)].reverse.find?
        (fun e => e.id == "D")) ∧
    dsize (load_data (some [⟨"D", "X", 20, "A"⟩, ⟨"D", "Y", 21, "B"⟩])).1 =
      (([⟨"D", "X", 20, "A"⟩, (⟨"D", "Y", 21, "B"⟩ : Student)].map
        Student.id).toFinset).card := by
  obtain ⟨h1, h2, h3⟩ :=
    load_duplicate_ids_last_wins
      [⟨"D", "X", 20, "A"⟩, ⟨"D", "Y", 21, "B"⟩] (by decide)
  exact ⟨h1, h2 "D", h3⟩
